import Mathlib

/-!
Verification of the client-side notification reconciliation engine of the
Franchiser-Proxy-Market dashboard (src/src/context/NotificationContext.tsx).

The engine owns three persisted structures: the notification list, the set of
seen order ids, and the map from order id to last known status.  One reconcile
pass (`refreshNotifications`) diffs a freshly fetched order feed against that
state, synthesizes new-order / status-change / delivered notifications,
carries matching prior notifications forward, deduplicates, sorts by timestamp
descending and truncates to 30.  `markAsRead` acknowledges one notification.

Shallow embedding conventions:
* JavaScript strings are `String`; order ids are modelled as the strings the
  code obtains via `String(order.id)`.
* `Date` values are `Nat` (milliseconds); absent timestamp fields are `none`.
  `Date.now()` at the time of a pass is an explicit `now : Nat` argument.
* JS `Set` and `Map` are lists with insertion-order semantics (`insertSeen`,
  `mapSet`, `mapLookup`), matching `Set.has/add` and `Map.get/set`.
* JS `||` on possibly-absent strings is `jsOr` (empty string is falsy).
* `String.prototype.toLowerCase` is `lowerStr` (ASCII folding) and
  `String.prototype.includes` is `includesStr`.
* `Array.prototype.sort` is stable in JS; it is modelled by Mathlib's stable
  `List.insertionSort` with the comparator of the source
  (`(a, b) => b.timestamp - a.timestamp`, i.e. timestamp descending).
-/

/-- The three notification kinds of the source (`NotificationType`). -/
inductive NotificationType where
  | new_order
  | status_change
  | delivered
deriving DecidableEq

/-- The `Notification` interface of the source.  `timestamp` is a `Date`
(milliseconds), `status`/`previousStatus`/`location` are optional fields. -/
structure Notification where
  id : String
  orderId : String
  type : NotificationType
  message : String
  customerName : String
  orderNumber : String
  location : Option String
  status : Option String
  previousStatus : Option String
  timestamp : Nat
  isRead : Bool
  isNew : Bool
deriving DecidableEq

/-- The nested `client` record read by `getCustomerName`. -/
structure OrderClient where
  nom : Option String
  prenoms : Option String
deriving DecidableEq

/-- The nested `user` record read by `getCustomerName`. -/
structure OrderUser where
  nom : Option String
  prenoms : Option String
  name : Option String
deriving DecidableEq

/-- An order-feed record, with the fields the engine reads.  `id` is the
string the code forms with `String(order.id)`; `status` is `String(order.status)`;
`adresse_location_name` stands for `adresse_livraison?.location_name`. -/
structure Order where
  id : String
  status : String
  status_text : Option String
  client : Option OrderClient
  user : Option OrderUser
  numero : Option String
  order_number : Option String
  delivery_location : Option String
  deliveryLocation : Option String
  adresse_location_name : Option String
  created_at : Option Nat
  updated_at : Option Nat
  order_date : Option Nat
deriving DecidableEq

/-- JS truthiness of an optional string: present and non-empty. -/
def strTruthy : Option String → Bool
  | some s => !(s == "")
  | none => false

/-- JS `a || b` for a possibly-absent string `a` with string fallback `b`. -/
def jsOr (a : Option String) (b : String) : String :=
  match a with
  | some s => if s == "" then b else s
  | none => b

/-- JS `a || b` on optional timestamps (absent falls through). -/
def optOr (a b : Option Nat) : Option Nat :=
  match a with
  | some x => some x
  | none => b

/-- Does `pat` occur at the head of `l`?  (Helper for `includesStr`.) -/
def charsStart : List Char → List Char → Bool
  | [], _ => true
  | _ :: _, [] => false
  | a :: as, b :: bs => a == b && charsStart as bs

/-- Does `pat` occur anywhere in `l`?  (Helper for `includesStr`.) -/
def charsHave (pat : List Char) : List Char → Bool
  | [] => charsStart pat []
  | c :: cs => charsStart pat (c :: cs) || charsHave pat cs

/-- JS `s.includes(pat)`. -/
def includesStr (s pat : String) : Bool :=
  charsHave pat.data s.data

/-- JS `s.toLowerCase()` (ASCII case folding). -/
def lowerStr (s : String) : String :=
  ⟨s.data.map Char.toLower⟩

/-- The delivered classification of the source: the lower-cased status label
contains "livré" or "delivered". -/
def isDeliveredStatus (s : String) : Bool :=
  let sl := lowerStr s
  includesStr sl "livré" || includesStr sl "delivered"

/-- `getNotificationType` of the source. -/
def getNotificationType (currentStatus : String) : NotificationType :=
  if isDeliveredStatus currentStatus then .delivered else .status_change

/-- `generateStatusMessage` of the source. -/
def generateStatusMessage (currentStatus : String) (previousStatus : Option String) : String :=
  let sl := lowerStr currentStatus
  if includesStr sl "livré" || includesStr sl "delivered" then
    "a été livrée avec succès"
  else if includesStr sl "préparation" || includesStr sl "preparing" then
    "est en cours de préparation"
  else if includesStr sl "livraison" || includesStr sl "delivering" then
    "est en cours de livraison"
  else if includesStr sl "annulé" || includesStr sl "cancelled" then
    "a été annulée"
  else if includesStr sl "attente" && includesStr sl "paiement" then
    "est en attente de paiement"
  else if strTruthy previousStatus then
    "est passée à \"" ++ currentStatus ++ "\""
  else
    "a changé de statut"

/-- Join the truthy parts of `[prenoms, nom]` with a space
(`[x, y].filter(Boolean).join(" ")`), `none` when no part remains. -/
def joinParts (prenoms nom : Option String) : Option String :=
  let parts := ([prenoms, nom].filterMap id).filter (fun s => !(s == ""))
  if parts.length > 0 then some (String.intercalate " " parts) else none

/-- `getCustomerName` of the source: client name parts, else user name parts,
else `user.name`, else "Client". -/
def getCustomerName (o : Order) : String :=
  let fromClient : Option String :=
    match o.client with
    | some c => joinParts c.prenoms c.nom
    | none => none
  let fromUser : Option String :=
    match o.user with
    | some u =>
      if strTruthy u.nom || strTruthy u.prenoms then joinParts u.prenoms u.nom else none
    | none => none
  let fromUserName : Option String :=
    match o.user with
    | some u => if strTruthy u.name then some (jsOr u.name "") else none
    | none => none
  (fromClient.or (fromUser.or fromUserName)).getD "Client"

/-- `getLocation` of the source. -/
def getLocation (o : Order) : String :=
  if strTruthy o.adresse_location_name then
    jsOr o.adresse_location_name ""
  else if strTruthy o.delivery_location || strTruthy o.deliveryLocation then
    jsOr o.delivery_location (jsOr o.deliveryLocation "")
  else
    "Non spécifiée"

/-- JS `s.padStart(n, c)`. -/
def padStartStr (s : String) (n : Nat) (c : Char) : String :=
  ⟨List.replicate (n - s.data.length) c ++ s.data⟩

/-- The status label of an order: `order.status_text || String(order.status)`. -/
def currentStatusOf (o : Order) : String :=
  jsOr o.status_text o.status

/-- The order number used in notifications:
`order.numero || order.order_number || CMD-<padded id>`. -/
def orderNumberOf (o : Order) : String :=
  jsOr o.numero (jsOr o.order_number ("CMD-" ++ padStartStr o.id 6 '0'))

/-- `currentStatus.replace(/\s/g, "_")`, used in status-change notification ids. -/
def statusIdPart (s : String) : String :=
  s.map (fun c => if c.isWhitespace then '_' else c)

/-- JS `Map.get` on an association list in insertion order. -/
def mapLookup (m : List (String × String)) (k : String) : Option String :=
  match m with
  | [] => none
  | (k', v) :: rest => if k' == k then some v else mapLookup rest k

/-- JS `Map.set`: overwrite in place when the key exists, else append. -/
def mapSet (m : List (String × String)) (k v : String) : List (String × String) :=
  match m with
  | [] => [(k, v)]
  | (k', v') :: rest => if k' == k then (k, v) :: rest else (k', v') :: mapSet rest k v

/-- JS `Set.add`: append when absent. -/
def insertSeen (s : List String) (x : String) : List String :=
  if s.contains x then s else s ++ [x]

/-- The three persisted structures owned by the provider. -/
structure EngineState where
  notifications : List Notification
  seenOrderIds : List String
  lastOrderStatuses : List (String × String)
deriving DecidableEq

/-- The state the provider starts from before anything is loaded. -/
def initState : EngineState :=
  { notifications := [], seenOrderIds := [], lastOrderStatuses := [] }

/-- `prev.find(n => n.orderId === order.id && n.type === "new_order" && !n.isRead)`;
the source computes `hasExistingNewOrderNotif` with `prev.some` over the same
predicate, which is `Option.isSome` of this search. -/
def findExistingNO (prev : List Notification) (oid : String) : Option Notification :=
  prev.find? (fun n => n.orderId == oid && n.type == NotificationType.new_order && !n.isRead)

/-- The notifications pushed onto `newNotifications` while the `orders.forEach`
body runs on one order: the new-order event, the retroactive upgrade of an
existing unread new-order notification, and the status-change event, in source
order. -/
def processOrder (prev : List Notification) (seen : List String)
    (statuses : List (String × String)) (now : Nat) (o : Order) : List Notification :=
  let orderId := o.id
  let currentStatus := currentStatusOf o
  let isNewOrder := !(seen.contains orderId)
  let previousStatus := mapLookup statuses orderId
  let hasStatusChanged : Bool :=
    !isNewOrder &&
      (match previousStatus with
       | some p => !(p == "") && !(p == currentStatus)
       | none => false)
  let existingNotif := findExistingNO prev orderId
  let hasExistingNewOrderNotif := existingNotif.isSome
  let notificationType := getNotificationType currentStatus
  let isDelivered := isDeliveredStatus currentStatus
  let part1 : List Notification :=
    if isNewOrder && !hasExistingNewOrderNotif then
      let notificationId := "new-" ++ orderId ++ "-" ++ toString now
      if isDelivered then
        [{ id := notificationId
           orderId := orderId
           type := .delivered
           message := "a été livrée avec succès"
           customerName := getCustomerName o
           orderNumber := orderNumberOf o
           location := some (getLocation o)
           status := some currentStatus
           previousStatus := none
           timestamp := (optOr o.updated_at (optOr o.created_at o.order_date)).getD now
           isRead := false
           isNew := true }]
      else
        [{ id := notificationId
           orderId := orderId
           type := .new_order
           message := "a passé une nouvelle commande"
           customerName := getCustomerName o
           orderNumber := orderNumberOf o
           location := some (getLocation o)
           status := some currentStatus
           previousStatus := none
           timestamp := (optOr o.created_at o.order_date).getD now
           isRead := false
           isNew := true }]
    else []
  let part2 : List Notification :=
    match existingNotif with
    | some e =>
      if isDelivered && !(e.status == some currentStatus) then
        [{ e with
           type := .delivered
           message := "a été livrée avec succès"
           status := some currentStatus
           timestamp := o.updated_at.getD e.timestamp }]
      else []
    | none => []
  let part3 : List Notification :=
    if hasStatusChanged then
      match previousStatus with
      | some p =>
        let hasSameStatusNotif :=
          prev.any (fun n => n.orderId == orderId && n.status == some currentStatus && !n.isRead)
        if !hasSameStatusNotif then
          [{ id := "status-" ++ orderId ++ "-" ++ statusIdPart currentStatus ++ "-" ++ toString now
             orderId := orderId
             type := notificationType
             message := generateStatusMessage currentStatus (some p)
             customerName := getCustomerName o
             orderNumber := orderNumberOf o
             location := some (getLocation o)
             status := some currentStatus
             previousStatus := some p
             timestamp := o.updated_at.getD now
             isRead := false
             isNew := true }]
        else []
      | none => []
    else []
  part1 ++ part2 ++ part3

/-- The replacement last-status map built by a pass: `updatedStatuses.set(orderId,
currentStatus)` for each order of the feed, starting from a fresh map. -/
def updatedStatusesOf (orders : List Order) : List (String × String) :=
  orders.foldl (fun m o => mapSet m o.id (currentStatusOf o)) []

/-- The carried-forward notifications of a pass: keep those whose order is still
in the feed, upgrading unrefreshed `new_order` entries of now-delivered orders
in place (the `.filter(...).map(...).filter(n => n !== null)` chain of the
source, with map-then-drop-null fused into `filterMap`). -/
def updatedPrevOf (prev : List Notification) (orders : List Order) : List Notification :=
  let currentOrderIds := orders.map (fun o => o.id)
  (prev.filter (fun n => currentOrderIds.contains n.orderId)).filterMap (fun n =>
    match orders.find? (fun o => o.id == n.orderId) with
    | none => none
    | some o =>
      let currentStatus := currentStatusOf o
      if n.type == NotificationType.new_order && isDeliveredStatus currentStatus
          && !(n.status == some currentStatus) then
        some { n with
               type := .delivered
               message := "a été livrée avec succès"
               status := some currentStatus }
      else some n)

/-- The deduplication key of a notification: `orderId-type` for
`new_order`/`delivered`, `orderId-type-status` for `status_change`. -/
def dedupKeyOf (n : Notification) : String :=
  match n.type with
  | .new_order => n.orderId ++ "-" ++ "new_order"
  | .delivered => n.orderId ++ "-" ++ "delivered"
  | .status_change =>
    n.orderId ++ "-" ++ "status_change" ++ "-" ++ (match n.status with | some s => s | none => "")

/-- Deduplicate, keeping the first occurrence of each key (`seenKeys` is the
set of keys already kept). -/
def dedupNotifs : List Notification → List String → List Notification
  | [], _ => []
  | n :: ns, seenKeys =>
    if seenKeys.contains (dedupKeyOf n) then dedupNotifs ns seenKeys
    else n :: dedupNotifs ns (dedupKeyOf n :: seenKeys)

/-- The comparator of the final `sort((a, b) => b.timestamp - a.timestamp)`:
`a` may precede `b` when its timestamp is at least `b`'s. -/
def notifGE (a b : Notification) : Prop :=
  b.timestamp ≤ a.timestamp

instance : DecidableRel notifGE := fun a b => Nat.decLe b.timestamp a.timestamp

instance : IsTotal Notification notifGE :=
  ⟨fun a b => Nat.le_total b.timestamp a.timestamp⟩

instance : IsTrans Notification notifGE :=
  ⟨fun _ _ _ h h' => Nat.le_trans h' h⟩

/-- One reconcile pass (`refreshNotifications`) over an already-fetched feed.
`feed = none` models an absent `response.data`; an empty or absent feed clears
the notification list and returns before touching the other structures. -/
def refreshNotifications (st : EngineState) (feed : Option (List Order)) (now : Nat) :
    EngineState :=
  match feed with
  | none => { st with notifications := [] }
  | some [] => { st with notifications := [] }
  | some orders =>
    let newNotifications :=
      orders.flatMap (processOrder st.notifications st.seenOrderIds st.lastOrderStatuses now)
    let combined := newNotifications ++ updatedPrevOf st.notifications orders
    let uniqueNotifications := dedupNotifs combined []
    let limited := (List.insertionSort notifGE uniqueNotifications).take 30
    { notifications := limited
      seenOrderIds := st.seenOrderIds
      lastOrderStatuses := updatedStatusesOf orders }

/-- A whole pass including the fetch: a failed fetch is caught and the state is
left untouched (the `try`/`catch` around `refreshNotifications`). -/
def reconcilePass (st : EngineState) (fetched : Except String (Option (List Order)))
    (now : Nat) : EngineState :=
  match fetched with
  | .error _ => st
  | .ok feed => refreshNotifications st feed now

/-- `markAsRead` of the source: set `isRead`/`isNew` on the matching
notification and record its order id as seen. -/
def markAsRead (st : EngineState) (notificationId : String) : EngineState :=
  let updated := st.notifications.map (fun n =>
    if n.id == notificationId then { n with isRead := true, isNew := false } else n)
  match st.notifications.find? (fun n => n.id == notificationId) with
  | some notification =>
    { st with
      notifications := updated
      seenOrderIds := insertSeen st.seenOrderIds notification.orderId }
  | none => { st with notifications := updated }

/-- Run a sequence of reconcile passes, each with its fetched feed and clock. -/
def runPasses (st : EngineState) : List (Option (List Order) × Nat) → EngineState
  | [] => st
  | p :: ps => runPasses (refreshNotifications st p.1 p.2) ps

/-- A feed record with only an id, a raw status and an optional creation time,
as used by the concrete scenarios below. -/
def mkOrder (i s : String) (ca : Option Nat) : Order :=
  { id := i, status := s, status_text := none, client := none, user := none,
    numero := none, order_number := none, delivery_location := none,
    deliveryLocation := none, adresse_location_name := none,
    created_at := ca, updated_at := none, order_date := none }

/-- Distinctness of deduplication keys, the shape invariant `dedupNotifs`
establishes on every reconcile result. -/
def PKeys (l : List Notification) : Prop :=
  l.Pairwise (fun a b => dedupKeyOf a ≠ dedupKeyOf b)


theorem mem_of_mem_dedupNotifs {m : Notification} :
    ∀ {l : List Notification} {s : List String}, m ∈ dedupNotifs l s → m ∈ l := by
  intro l
  induction l with
  | nil => intro s h; simp [dedupNotifs] at h
  | cons n ns ih =>
    intro s h
    by_cases hc : s.contains (dedupKeyOf n) = true
    · simp only [dedupNotifs, if_pos hc] at h
      exact List.mem_cons_of_mem _ (ih h)
    · simp only [dedupNotifs, if_neg hc] at h
      rcases List.mem_cons.mp h with h | h
      · exact h ▸ List.mem_cons_self _ _
      · exact List.mem_cons_of_mem _ (ih h)

theorem dedupNotifs_key_not_mem {m : Notification} :
    ∀ {l : List Notification} {s : List String}, m ∈ dedupNotifs l s →
      s.contains (dedupKeyOf m) = false := by
  intro l
  induction l with
  | nil => intro s h; simp [dedupNotifs] at h
  | cons n ns ih =>
    intro s h
    by_cases hc : s.contains (dedupKeyOf n) = true
    · simp only [dedupNotifs, if_pos hc] at h
      exact ih h
    · simp only [dedupNotifs, if_neg hc] at h
      rcases List.mem_cons.mp h with h | h
      · subst h; simpa using hc
      · have h2 := ih h
        simp only [List.contains_cons, Bool.or_eq_false_iff] at h2
        exact h2.2

theorem dedupNotifs_pairwise :
    ∀ (l : List Notification) (s : List String), PKeys (dedupNotifs l s) := by
  intro l
  induction l with
  | nil => intro s; exact List.Pairwise.nil
  | cons n ns ih =>
    intro s
    by_cases hc : s.contains (dedupKeyOf n) = true
    · simpa only [dedupNotifs, if_pos hc] using ih s
    · simp only [dedupNotifs, if_neg hc]
      refine List.Pairwise.cons ?_ (ih _)
      intro b hb
      have h2 := dedupNotifs_key_not_mem hb
      simp only [List.contains_cons, Bool.or_eq_false_iff] at h2
      intro hkey
      rw [hkey] at h2
      simp at h2

theorem dedupNotifs_eq_self :
    ∀ {l : List Notification} {s : List String}, PKeys l →
      (∀ m ∈ l, s.contains (dedupKeyOf m) = false) → dedupNotifs l s = l := by
  intro l
  induction l with
  | nil => intro s _ _; rfl
  | cons n ns ih =>
    intro s hp hs
    have hn : s.contains (dedupKeyOf n) = false := hs n (List.mem_cons_self _ _)
    simp only [dedupNotifs, hn, Bool.false_eq_true, if_false]
    congr 1
    refine ih (List.Pairwise.sublist (List.sublist_cons_self _ _) hp) ?_
    intro m hm
    have hkey : dedupKeyOf n ≠ dedupKeyOf m :=
      (List.pairwise_cons.mp hp).1 m hm
    simp only [List.contains_cons, Bool.or_eq_false_iff]
    constructor
    · simpa using fun h => hkey h.symm
    · exact hs m (List.mem_cons_of_mem _ hm)

theorem dedupNotifs_mem_split {m : Notification} :
    ∀ {l : List Notification} {s : List String}, m ∈ dedupNotifs l s →
      ∃ l1 l2, l = l1 ++ m :: l2 ∧ ∀ b ∈ l1, dedupKeyOf b ≠ dedupKeyOf m := by
  intro l
  induction l with
  | nil => intro s h; simp [dedupNotifs] at h
  | cons n ns ih =>
    intro s h
    by_cases hc : s.contains (dedupKeyOf n) = true
    · simp only [dedupNotifs, if_pos hc] at h
      obtain ⟨l1, l2, hsplit, hkeys⟩ := ih h
      by_cases hk : dedupKeyOf n = dedupKeyOf m
      · exfalso
        have h1 := dedupNotifs_key_not_mem h
        rw [← hk, hc] at h1
        simp at h1
      · refine ⟨n :: l1, l2, by simp [hsplit], ?_⟩
        intro b hb
        rcases List.mem_cons.mp hb with hb | hb
        · exact hb ▸ hk
        · exact hkeys b hb
    · simp only [dedupNotifs, if_neg hc] at h
      rcases List.mem_cons.mp h with h | h
      · exact ⟨[], ns, by simp [h], by intro b hb; simp at hb⟩
      · obtain ⟨l1, l2, hsplit, hkeys⟩ := ih h
        have hk : dedupKeyOf n ≠ dedupKeyOf m := by
          have h2 := dedupNotifs_key_not_mem h
          simp only [List.contains_cons, Bool.or_eq_false_iff] at h2
          intro he
          rw [he] at h2
          simp at h2
        refine ⟨n :: l1, l2, by simp [hsplit], ?_⟩
        intro b hb
        rcases List.mem_cons.mp hb with hb | hb
        · exact hb ▸ hk
        · exact hkeys b hb

theorem mem_dedupNotifs_of_first {m : Notification} :
    ∀ {l1 l2 : List Notification} {s : List String},
      (∀ b ∈ l1, dedupKeyOf b ≠ dedupKeyOf m) → s.contains (dedupKeyOf m) = false →
      m ∈ dedupNotifs (l1 ++ m :: l2) s := by
  intro l1
  induction l1 with
  | nil =>
    intro l2 s _ hs
    simp only [List.nil_append, dedupNotifs, hs, Bool.false_eq_true, if_false]
    exact List.mem_cons_self _ _
  | cons n ns ih =>
    intro l2 s hkeys hs
    have hkn : dedupKeyOf n ≠ dedupKeyOf m := hkeys n (List.mem_cons_self _ _)
    have hrest : ∀ b ∈ ns, dedupKeyOf b ≠ dedupKeyOf m := fun b hb =>
      hkeys b (List.mem_cons_of_mem _ hb)
    by_cases hc : s.contains (dedupKeyOf n) = true
    · simp only [List.cons_append, dedupNotifs, if_pos hc]
      exact ih hrest hs
    · simp only [List.cons_append, dedupNotifs, if_neg hc]
      refine List.mem_cons_of_mem _ (ih hrest ?_)
      simp only [List.contains_cons, Bool.or_eq_false_iff]
      constructor
      · simpa using fun h => hkn h.symm
      · exact hs

theorem first_occurrence_unique {α β : Type} (f : α → β) :
    ∀ {l1 l1' l2 l2' : List α} {a b : α}, l1 ++ a :: l2 = l1' ++ b :: l2' →
      f a = f b → (∀ c ∈ l1, f c ≠ f a) → (∀ c ∈ l1', f c ≠ f b) → a = b := by
  intro l1
  induction l1 with
  | nil =>
    intro l1' l2 l2' a b heq hf _ hk'
    cases l1' with
    | nil => simpa using congrArg (fun l => l.head?) heq
    | cons c cs =>
      exfalso
      have : a = c := by simpa using congrArg (fun l => l.head?) heq
      exact hk' c (List.mem_cons_self _ _) (by rw [← this, hf])
  | cons c cs ih =>
    intro l1' l2 l2' a b heq hf hk hk'
    cases l1' with
    | nil =>
      exfalso
      have : c = b := by simpa using congrArg (fun l => l.head?) heq
      exact hk c (List.mem_cons_self _ _) (by rw [this, ← hf])
    | cons d ds =>
      have hcd : c = d := by simpa using congrArg (fun l => l.head?) heq
      have htl : cs ++ a :: l2 = ds ++ b :: l2' := by
        simpa using congrArg List.tail heq
      exact ih htl hf (fun x hx => hk x (List.mem_cons_of_mem _ hx))
        (fun x hx => hk' x (List.mem_cons_of_mem _ hx))

theorem countP_le_one_of_pairwise {R : Notification → Notification → Prop}
    (p : Notification → Bool) :
    ∀ {l : List Notification}, l.Pairwise R →
      (∀ a ∈ l, ∀ b ∈ l, p a = true → p b = true → R a b → False) → l.countP p ≤ 1 := by
  intro l
  induction l with
  | nil => intro _ _; simp
  | cons n ns ih =>
    intro hp hab
    have hps := List.pairwise_cons.mp hp
    by_cases hn : p n = true
    · have hzero : ns.countP p = 0 := by
        rw [List.countP_eq_zero]
        intro b hb hpb
        exact hab n (List.mem_cons_self _ _) b (List.mem_cons_of_mem _ hb) hn hpb
          (hps.1 b hb)
      rw [List.countP_cons, hzero, hn]
      simp
    · rw [List.countP_cons, if_neg (by simpa using hn)]
      simpa using ih hps.2 (fun a ha b hb => hab a (List.mem_cons_of_mem _ ha)
        b (List.mem_cons_of_mem _ hb))

/-- The notification list computed by a pass over a non-empty feed. -/
theorem refresh_cons_notifications (st : EngineState) (o : Order) (os : List Order) (now : Nat) :
    (refreshNotifications st (some (o :: os)) now).notifications =
      (List.insertionSort notifGE (dedupNotifs
        ((o :: os).flatMap
            (processOrder st.notifications st.seenOrderIds st.lastOrderStatuses now)
          ++ updatedPrevOf st.notifications (o :: os)) [])).take 30 := rfl

/-- The last-status map computed by a pass over a non-empty feed. -/
theorem refresh_cons_statuses (st : EngineState) (o : Order) (os : List Order) (now : Nat) :
    (refreshNotifications st (some (o :: os)) now).lastOrderStatuses =
      updatedStatusesOf (o :: os) := rfl

/-- A pass never touches the seen-order set. -/
theorem refresh_seen (st : EngineState) (feed : Option (List Order)) (now : Nat) :
    (refreshNotifications st feed now).seenOrderIds = st.seenOrderIds := by
  match feed with
  | none => rfl
  | some [] => rfl
  | some (o :: os) => rfl

theorem PKeys_of_refresh (st : EngineState) (feed : Option (List Order)) (now : Nat) :
    PKeys (refreshNotifications st feed now).notifications := by
  match feed with
  | none => exact List.Pairwise.nil
  | some [] => exact List.Pairwise.nil
  | some (o :: os) =>
    rw [refresh_cons_notifications]
    have hperm := List.perm_insertionSort notifGE (dedupNotifs
        ((o :: os).flatMap
            (processOrder st.notifications st.seenOrderIds st.lastOrderStatuses now)
          ++ updatedPrevOf st.notifications (o :: os)) [])
    exact List.Pairwise.sublist (List.take_sublist _ _)
      ((hperm.pairwise_iff (fun h he => h he.symm)).mpr (dedupNotifs_pairwise _ _))

theorem sorted_of_refresh (st : EngineState) (feed : Option (List Order)) (now : Nat) :
    List.Sorted notifGE (refreshNotifications st feed now).notifications := by
  match feed with
  | none => exact List.sorted_nil
  | some [] => exact List.sorted_nil
  | some (o :: os) =>
    rw [refresh_cons_notifications]
    exact List.Pairwise.sublist (List.take_sublist _ _) (List.sorted_insertionSort _ _)

theorem length_of_refresh_le (st : EngineState) (feed : Option (List Order)) (now : Nat) :
    (refreshNotifications st feed now).notifications.length ≤ 30 := by
  match feed with
  | none => simp [refreshNotifications]
  | some [] => simp [refreshNotifications]
  | some (o :: os) =>
    rw [refresh_cons_notifications]
    simp

theorem dedupKeyOf_new_order {n : Notification} (h : n.type = NotificationType.new_order) :
    dedupKeyOf n = n.orderId ++ "-" ++ "new_order" := by
  unfold dedupKeyOf
  rw [h]

theorem dedupKeyOf_delivered {n : Notification} (h : n.type = NotificationType.delivered) :
    dedupKeyOf n = n.orderId ++ "-" ++ "delivered" := by
  unfold dedupKeyOf
  rw [h]

theorem dedupKeyOf_status_change {n : Notification} (h : n.type = NotificationType.status_change) :
    dedupKeyOf n = n.orderId ++ "-" ++ "status_change" ++ "-" ++
      (match n.status with | some s => s | none => "") := by
  unfold dedupKeyOf
  rw [h]

theorem PKeys_runPasses (st : EngineState) :
    ∀ passes : List (Option (List Order) × Nat), PKeys st.notifications →
      PKeys (runPasses st passes).notifications := by
  intro passes
  induction passes generalizing st with
  | nil => intro h; exact h
  | cons p ps ih => intro _; exact ih _ (PKeys_of_refresh st p.1 p.2)

/-- C1: for every prior state, one reconciliation pass whose fetched order feed
is empty or absent results in an empty notification list. -/
theorem C1_scope_loss_clears (st : EngineState) (now : Nat) :
    (refreshNotifications st none now).notifications = [] ∧
    (refreshNotifications st (some []) now).notifications = [] :=
  ⟨rfl, rfl⟩

/-- C10: a reconcile pass whose feed is empty or absent leaves the seen-ID set
and the last-known-status map exactly as they were; only the notification list
is cleared. -/
theorem C10_empty_feed_frame (st : EngineState) (now : Nat) :
    (refreshNotifications st none now).seenOrderIds = st.seenOrderIds ∧
    (refreshNotifications st none now).lastOrderStatuses = st.lastOrderStatuses ∧
    (refreshNotifications st (some []) now).seenOrderIds = st.seenOrderIds ∧
    (refreshNotifications st (some []) now).lastOrderStatuses = st.lastOrderStatuses :=
  ⟨rfl, rfl, rfl, rfl⟩

/-- C8: a reconcile pass whose fetch step raises is caught and leaves the
whole engine state (notification list, seen-ID set, last-known-status map)
exactly as it was. -/
theorem C8_fetch_error_atomic (st : EngineState) (e : String) (now : Nat) :
    reconcilePass st (Except.error e) now = st := rfl

/-- C2 counterexample: from the empty state, a pass whose feed reports order X
already delivered followed by a pass reporting X pending leaves two unread
notifications of the new_order/delivered class for X (one delivered, one
new_order), violating the combined at-most-one bound. -/
theorem C2_counterexample :
    ¬ ((runPasses initState [(some [mkOrder "X" "delivered" (some 100)], 1),
        (some [mkOrder "X" "pending" (some 100)], 2)]).notifications.countP
        (fun n => n.orderId == "X" && !n.isRead &&
          (n.type == NotificationType.new_order ||
           n.type == NotificationType.delivered)) ≤ 1) := by
  decide

/-- C2 (amended): after any sequence of reconcile passes starting from the
empty state, each order id has at most one unread notification of type
new_order, at most one unread of type delivered, and at most one unread
status_change per distinct status value — the bound holds per type, not for
the new_order/delivered class combined. -/
theorem C2_at_most_one_unread_per_type (passes : List (Option (List Order) × Nat))
    (oid s : String) :
    ((runPasses initState passes).notifications.countP
        (fun n => n.orderId == oid && n.type == NotificationType.new_order && !n.isRead) ≤ 1) ∧
    ((runPasses initState passes).notifications.countP
        (fun n => n.orderId == oid && n.type == NotificationType.delivered && !n.isRead) ≤ 1) ∧
    ((runPasses initState passes).notifications.countP
        (fun n => n.orderId == oid && n.type == NotificationType.status_change &&
          n.status == some s && !n.isRead) ≤ 1) := by
  have hpk : PKeys (runPasses initState passes).notifications :=
    PKeys_runPasses initState passes List.Pairwise.nil
  refine ⟨?_, ?_, ?_⟩
  · refine countP_le_one_of_pairwise _ hpk ?_
    intro a _ b _ hpa hpb hR
    simp only [Bool.and_eq_true, beq_iff_eq, Bool.not_eq_true'] at hpa hpb
    exact hR (by rw [dedupKeyOf_new_order hpa.1.2, dedupKeyOf_new_order hpb.1.2,
      hpa.1.1, hpb.1.1])
  · refine countP_le_one_of_pairwise _ hpk ?_
    intro a _ b _ hpa hpb hR
    simp only [Bool.and_eq_true, beq_iff_eq, Bool.not_eq_true'] at hpa hpb
    exact hR (by rw [dedupKeyOf_delivered hpa.1.2, dedupKeyOf_delivered hpb.1.2,
      hpa.1.1, hpb.1.1])
  · refine countP_le_one_of_pairwise _ hpk ?_
    intro a _ b _ hpa hpb hR
    simp only [Bool.and_eq_true, beq_iff_eq, Bool.not_eq_true'] at hpa hpb
    exact hR (by rw [dedupKeyOf_status_change hpa.1.1.2, dedupKeyOf_status_change hpb.1.1.2,
      hpa.1.1.1, hpb.1.1.1, hpa.1.2, hpb.1.2])

/-- C4 counterexample: with an unchanged one-order feed whose order is unseen
and already delivered, the second pass re-synthesizes the delivered
notification with a fresh id, so the list after the second pass differs from
the list after the first. -/
theorem C4_counterexample :
    (runPasses initState [(some [mkOrder "Z" "delivered" (some 100)], 1),
        (some [mkOrder "Z" "delivered" (some 100)], 2)]).notifications ≠
    (runPasses initState [(some [mkOrder "Z" "delivered" (some 100)], 1)]).notifications := by
  decide

/-- C5 counterexample: an entry for order Y in the last-known-status map is
dropped by a pass over a non-empty feed that does not mention Y — the map is
fully replaced, not merged. -/
theorem C5_counterexample :
    mapLookup (EngineState.lastOrderStatuses ⟨[], [], [("Y", "a")]⟩) "Y" = some "a" ∧
    mapLookup (refreshNotifications ⟨[], [], [("Y", "a")]⟩
        (some [mkOrder "X" "pending" none]) 7).lastOrderStatuses "Y" = none := by
  exact ⟨rfl, by decide⟩

/-- The unread new-order notification for order X in the C3 scenario. -/
def c3NewOrderNotif : Notification :=
  { id := "n1", orderId := "X", type := .new_order, message := "", customerName := "",
    orderNumber := "", location := none, status := some "pending", previousStatus := none,
    timestamp := 5, isRead := false, isNew := true }

/-- An unread status-change notification for the same order X, present in the
prior state of the C3 scenario. -/
def c3StatusNotif : Notification :=
  { id := "s1", orderId := "X", type := .status_change, message := "", customerName := "",
    orderNumber := "", location := none, status := some "preparing", previousStatus := none,
    timestamp := 4, isRead := false, isNew := true }

/-- C3 counterexample: a state holding an unread new_order notification for X
and an unread status_change notification for X, reconciled with X now
delivered, yields two notifications for X (the upgraded delivered one and the
carried status_change), not exactly one. -/
theorem C3_counterexample :
    ((refreshNotifications ⟨[c3NewOrderNotif, c3StatusNotif], [], []⟩
        (some [mkOrder "X" "delivered" none]) 9).notifications.filter
        (fun n => n.orderId == "X")).length = 2 := by
  decide

/-- The 40 distinct fresh orders of the C6 scenario, with ids 1..40 and
creation times 1..40. -/
def orders40 : List Order :=
  (List.range 40).map (fun k => mkOrder (toString (k + 1)) "pending" (some (k + 1)))

/-- C6: every reconcile pass yields a notification list sorted by timestamp
descending of length at most 30; the pass over 40 distinct newly-flagged
orders yields exactly 30 notifications, the 30 most recent by timestamp. -/
theorem C6_sorted_and_capped :
    (∀ (st : EngineState) (feed : Option (List Order)) (now : Nat),
      List.Sorted notifGE (refreshNotifications st feed now).notifications ∧
      (refreshNotifications st feed now).notifications.length ≤ 30) ∧
    (refreshNotifications initState (some orders40) 3).notifications.length = 30 ∧
    (refreshNotifications initState (some orders40) 3).notifications.map
      (fun n => n.timestamp) = (List.range 30).map (fun k => 40 - k) := by
  refine ⟨fun st feed now => ⟨sorted_of_refresh st feed now, length_of_refresh_le st feed now⟩,
    by decide, by decide⟩

theorem mem_insertSeen_self (s : List String) (x : String) : x ∈ insertSeen s x := by
  unfold insertSeen
  by_cases h : s.contains x = true
  · rw [if_pos h]
    exact List.elem_iff.mp h
  · rw [if_neg h]
    simp

theorem mem_insertSeen_of_mem {s : List String} {y : String} (x : String) (h : y ∈ s) :
    y ∈ insertSeen s x := by
  unfold insertSeen
  by_cases hc : s.contains x = true
  · rw [if_pos hc]; exact h
  · rw [if_neg hc]; exact List.mem_append_left _ h

theorem insertSeen_of_mem {s : List String} {x : String} (h : x ∈ s) :
    insertSeen s x = s := by
  unfold insertSeen
  rw [if_pos (List.elem_iff.mpr h)]

/-- The per-notification transform applied by `markAsRead`. -/
def markAsReadUpd (nid : String) (n : Notification) : Notification :=
  if n.id == nid then { n with isRead := true, isNew := false } else n

theorem markAsReadUpd_id (nid : String) (n : Notification) :
    (markAsReadUpd nid n).id = n.id := by
  unfold markAsReadUpd
  by_cases h : (n.id == nid) = true
  · rw [if_pos h]
  · rw [if_neg h]

theorem markAsReadUpd_idem (nid : String) (n : Notification) :
    markAsReadUpd nid (markAsReadUpd nid n) = markAsReadUpd nid n := by
  unfold markAsReadUpd
  by_cases h : (n.id == nid) = true
  · simp only [if_pos h]
  · simp only [if_neg h]

theorem markAsRead_eq_of_find (st : EngineState) (nid : String) (n0 : Notification)
    (h : st.notifications.find? (fun n => n.id == nid) = some n0) :
    markAsRead st nid =
      { st with
        notifications := st.notifications.map (markAsReadUpd nid)
        seenOrderIds := insertSeen st.seenOrderIds n0.orderId } := by
  unfold markAsRead markAsReadUpd
  rw [h]

theorem markAsRead_notifications (st : EngineState) (nid : String) :
    (markAsRead st nid).notifications = st.notifications.map (markAsReadUpd nid) := by
  unfold markAsRead markAsReadUpd
  cases st.notifications.find? (fun n => n.id == nid) <;> rfl

theorem markAsRead_statuses (st : EngineState) (nid : String) :
    (markAsRead st nid).lastOrderStatuses = st.lastOrderStatuses := by
  unfold markAsRead
  cases st.notifications.find? (fun n => n.id == nid) <;> rfl

/-- C7: for a notification id present in the list, `markAsRead` sets that
notification's isRead to true and isNew to false (position by position, every
other notification is returned unchanged), adds the matched notification's
orderId to the seen-ID set while keeping its previous members, and applying
`markAsRead` a second time changes nothing (full state equality, so both the
notification list and the seen-ID set are unchanged). -/
theorem C7_markAsRead_sets_and_idem (st : EngineState) (nid : String) (n0 : Notification)
    (h : st.notifications.find? (fun n => n.id == nid) = some n0) :
    (∀ i : Nat, (markAsRead st nid).notifications[i]? =
      (st.notifications[i]?).map (fun n =>
        if n.id == nid then { n with isRead := true, isNew := false } else n)) ∧
    n0.orderId ∈ (markAsRead st nid).seenOrderIds ∧
    (∀ x ∈ st.seenOrderIds, x ∈ (markAsRead st nid).seenOrderIds) ∧
    (markAsRead st nid).lastOrderStatuses = st.lastOrderStatuses ∧
    markAsRead (markAsRead st nid) nid = markAsRead st nid := by
  have hseen : (markAsRead st nid).seenOrderIds = insertSeen st.seenOrderIds n0.orderId := by
    unfold markAsRead
    rw [h]
  refine ⟨?_, ?_, ?_, markAsRead_statuses st nid, ?_⟩
  · intro i
    rw [markAsRead_notifications]
    simp only [List.getElem?_map]
    rfl
  · rw [hseen]
    exact mem_insertSeen_self _ _
  · intro x hx
    rw [hseen]
    exact mem_insertSeen_of_mem _ hx
  · have hupdid : (markAsReadUpd nid n0).orderId = n0.orderId := by
      unfold markAsReadUpd
      by_cases hb : (n0.id == nid) = true
      · rw [if_pos hb]
      · rw [if_neg hb]
    have hfind2 : (st.notifications.map (markAsReadUpd nid)).find? (fun n => n.id == nid) =
        some (markAsReadUpd nid n0) := by
      rw [List.find?_map]
      have hp : ((fun n : Notification => n.id == nid) ∘ markAsReadUpd nid) =
          (fun n : Notification => n.id == nid) := by
        funext n
        simp [Function.comp, markAsReadUpd_id]
      rw [hp, h]
      rfl
    have h1 := markAsRead_eq_of_find st nid n0 h
    rw [h1]
    have h2 := markAsRead_eq_of_find
      { st with
        notifications := st.notifications.map (markAsReadUpd nid)
        seenOrderIds := insertSeen st.seenOrderIds n0.orderId } nid
      (markAsReadUpd nid n0) hfind2
    rw [h2]
    simp only [EngineState.mk.injEq]
    refine ⟨?_, ?_, trivial⟩
    · rw [List.map_map]
      exact List.map_congr_left (fun a _ => markAsReadUpd_idem nid a)
    · rw [hupdid]
      exact insertSeen_of_mem (mem_insertSeen_self _ _)

/-- C7 witness: the concrete one-notification state, its notification found by
id, marked read; marking a second time changes nothing. -/
theorem C7_markAsRead_witness :
    c3NewOrderNotif.orderId ∈
      (markAsRead ⟨[c3NewOrderNotif], [], []⟩ "n1").seenOrderIds ∧
    markAsRead (markAsRead ⟨[c3NewOrderNotif], [], []⟩ "n1") "n1" =
      markAsRead ⟨[c3NewOrderNotif], [], []⟩ "n1" :=
  ⟨(C7_markAsRead_sets_and_idem ⟨[c3NewOrderNotif], [], []⟩ "n1" c3NewOrderNotif
      (by decide)).2.1,
   (C7_markAsRead_sets_and_idem ⟨[c3NewOrderNotif], [], []⟩ "n1" c3NewOrderNotif
      (by decide)).2.2.2.2⟩

theorem mapLookup_mapSet_self (m : List (String × String)) (k v : String) :
    mapLookup (mapSet m k v) k = some v := by
  induction m with
  | nil => simp [mapSet, mapLookup]
  | cons kv rest ih =>
    by_cases h : (kv.1 == k) = true
    · unfold mapSet
      rw [if_pos h]
      unfold mapLookup
      simp
    · unfold mapSet
      rw [if_neg h]
      unfold mapLookup
      rw [if_neg h]
      exact ih

theorem mapLookup_mapSet_other {k k' : String} (m : List (String × String)) (v : String)
    (h : k' ≠ k) : mapLookup (mapSet m k v) k' = mapLookup m k' := by
  induction m with
  | nil =>
    simp only [mapSet, mapLookup]
    rw [if_neg (by simpa using fun he => h he.symm)]
  | cons kv rest ih =>
    by_cases hk : (kv.1 == k) = true
    · unfold mapSet
      rw [if_pos hk]
      unfold mapLookup
      rw [if_neg (by simpa using fun he => h he.symm)]
      rw [if_neg (by
        have : kv.1 = k := by simpa using hk
        rw [this]
        simpa using fun he => h he.symm)]
    · unfold mapSet
      rw [if_neg hk]
      unfold mapLookup
      by_cases hk' : (kv.1 == k') = true
      · rw [if_pos hk', if_pos hk']
      · rw [if_neg hk', if_neg hk']
        exact ih

theorem mapLookup_updatedStatuses_isSome (k : String) :
    ∀ (orders : List Order) (acc : List (String × String)),
      (mapLookup (orders.foldl (fun m o => mapSet m o.id (currentStatusOf o)) acc) k).isSome =
        (orders.any (fun o => o.id == k) || (mapLookup acc k).isSome) := by
  intro orders
  induction orders with
  | nil => intro acc; simp
  | cons o os ih =>
    intro acc
    rw [List.foldl_cons, ih]
    by_cases h : (o.id == k) = true
    · have heq : o.id = k := by simpa using h
      rw [heq, mapLookup_mapSet_self]
      simp [h, heq]
    · have hne : k ≠ o.id := by
        intro he
        rw [he] at h
        simp at h
      rw [mapLookup_mapSet_other _ _ hne]
      simp only [List.any_cons, h, Bool.false_or]

/-- C5 (amended): a reconcile pass over a non-empty feed fully replaces the
last-known-status map — afterwards the map has an entry exactly for the
feed's order ids, so entries for orders absent from the feed are removed
rather than retained; only an empty or absent feed leaves the map untouched. -/
theorem C5_statuses_fully_replaced (st : EngineState) (orders : List Order) (now : Nat)
    (k : String) (h : orders ≠ []) :
    ((mapLookup (refreshNotifications st (some orders) now).lastOrderStatuses k).isSome ↔
      k ∈ orders.map (fun o => o.id)) ∧
    (refreshNotifications st none now).lastOrderStatuses = st.lastOrderStatuses ∧
    (refreshNotifications st (some []) now).lastOrderStatuses = st.lastOrderStatuses := by
  refine ⟨?_, rfl, rfl⟩
  match orders, h with
  | o :: os, _ =>
    rw [refresh_cons_statuses]
    unfold updatedStatusesOf
    rw [mapLookup_updatedStatuses_isSome]
    simp only [mapLookup, Option.isSome_none, Bool.or_false]
    rw [List.any_eq_true]
    constructor
    · rintro ⟨q, hq, hqk⟩
      exact List.mem_map.mpr ⟨q, hq, by simpa using hqk⟩
    · intro hk
      obtain ⟨q, hq, hqk⟩ := List.mem_map.mp hk
      exact ⟨q, hq, by simpa using hqk⟩

/-- C5 witness: the concrete pass of the counterexample, instantiated for the
feed's own order id. -/
theorem C5_statuses_fully_replaced_witness :
    [mkOrder "X" "pending" none] ≠ ([] : List Order) ∧
    ((mapLookup (refreshNotifications ⟨[], [], [("Y", "a")]⟩
        (some [mkOrder "X" "pending" none]) 7).lastOrderStatuses "X").isSome ↔
      "X" ∈ [mkOrder "X" "pending" none].map (fun o => o.id)) :=
  ⟨by decide,
   (C5_statuses_fully_replaced ⟨[], [], [("Y", "a")]⟩ [mkOrder "X" "pending" none] 7 "X"
      (by decide)).1⟩

theorem findExistingNO_some {prev : List Notification} {oid : String} {e : Notification}
    (h : findExistingNO prev oid = some e) :
    e ∈ prev ∧ e.orderId = oid ∧ e.type = NotificationType.new_order ∧ e.isRead = false := by
  unfold findExistingNO at h
  refine ⟨List.mem_of_find?_eq_some h, ?_⟩
  have hp := List.find?_some h
  simp only [Bool.and_eq_true, beq_iff_eq, Bool.not_eq_true'] at hp
  exact ⟨hp.1.1, hp.1.2, hp.2⟩

theorem mem_processOrder {m : Notification} {prev : List Notification} {seen : List String}
    {statuses : List (String × String)} {now : Nat} {o : Order}
    (h : m ∈ processOrder prev seen statuses now o) :
    m.orderId = o.id ∧ m.isRead = false ∧ m.status = some (currentStatusOf o) ∧
    ((seen.contains o.id = false ∧ findExistingNO prev o.id = none ∧
        (m.type = NotificationType.new_order ∧ isDeliveredStatus (currentStatusOf o) = false ∨
         m.type = NotificationType.delivered ∧ isDeliveredStatus (currentStatusOf o) = true) ∧
        m.id = "new-" ++ o.id ++ "-" ++ toString now) ∨
     (∃ e, findExistingNO prev o.id = some e ∧
        isDeliveredStatus (currentStatusOf o) = true ∧
        (e.status == some (currentStatusOf o)) = false ∧
        m = { e with
              type := NotificationType.delivered
              message := "a été livrée avec succès"
              status := some (currentStatusOf o)
              timestamp := o.updated_at.getD e.timestamp }) ∨
     (seen.contains o.id = true ∧
        (∃ p, mapLookup statuses o.id = some p ∧ (p == "") = false ∧
          (p == currentStatusOf o) = false) ∧
        m.type = getNotificationType (currentStatusOf o))) := by
  unfold processOrder at h
  simp only at h
  rcases List.mem_append.mp h with h12 | h3
  · rcases List.mem_append.mp h12 with h1 | h2
    · by_cases hc : (!seen.contains o.id && !(findExistingNO prev o.id).isSome) = true
      · rw [if_pos hc] at h1
        rw [Bool.and_eq_true] at hc
        obtain ⟨ha, hb⟩ := hc
        have hcontains : seen.contains o.id = false := by simpa using ha
        have hfind : findExistingNO prev o.id = none := by
          have h4 : (findExistingNO prev o.id).isSome = false := by simpa using hb
          rcases hfx : findExistingNO prev o.id with _ | e
          · rfl
          · rw [hfx] at h4
            simp at h4
        by_cases hdel : isDeliveredStatus (currentStatusOf o) = true
        · rw [if_pos hdel] at h1
          rw [List.mem_singleton] at h1
          subst h1
          exact ⟨rfl, rfl, rfl, Or.inl ⟨hcontains, hfind, Or.inr ⟨rfl, hdel⟩, rfl⟩⟩
        · rw [if_neg hdel] at h1
          rw [List.mem_singleton] at h1
          subst h1
          exact ⟨rfl, rfl, rfl, Or.inl ⟨hcontains, hfind,
            Or.inl ⟨rfl, by simpa using hdel⟩, rfl⟩⟩
      · rw [if_neg hc] at h1
        simp at h1
    · rcases hex : findExistingNO prev o.id with _ | e
      · rw [hex] at h2
        simp at h2
      · rw [hex] at h2
        simp only [] at h2
        by_cases hcond : (isDeliveredStatus (currentStatusOf o) &&
            !(e.status == some (currentStatusOf o))) = true
        · rw [if_pos hcond] at h2
          rw [List.mem_singleton] at h2
          rw [Bool.and_eq_true] at hcond
          obtain ⟨hd, hs⟩ := hcond
          have hepred := findExistingNO_some hex
          subst h2
          exact ⟨hepred.2.1, hepred.2.2.2, rfl,
            Or.inr (Or.inl ⟨e, rfl, hd, by simpa using hs, rfl⟩)⟩
        · rw [if_neg hcond] at h2
          simp at h2
  · rcases hprev : mapLookup statuses o.id with _ | p
    · rw [hprev] at h3
      simp at h3
    · rw [hprev] at h3
      simp only [] at h3
      by_cases hc3 : (!!seen.contains o.id && (!(p == "") && !(p == currentStatusOf o))) = true
      · rw [if_pos hc3] at h3
        rw [Bool.and_eq_true] at hc3
        obtain ⟨ha, hb⟩ := hc3
        have hcontains : seen.contains o.id = true := by simpa using ha
        rw [Bool.and_eq_true] at hb
        obtain ⟨hp1, hp2⟩ := hb
        by_cases hsame : (!prev.any fun n =>
            n.orderId == o.id && n.status == some (currentStatusOf o) && !n.isRead) = true
        · rw [if_pos hsame] at h3
          rw [List.mem_singleton] at h3
          subst h3
          exact ⟨rfl, rfl, rfl, Or.inr (Or.inr ⟨hcontains,
            ⟨p, rfl, by simpa using hp1, by simpa using hp2⟩, rfl⟩)⟩
        · rw [if_neg hsame] at h3
          simp at h3
      · rw [if_neg hc3] at h3
        simp at h3

theorem mem_updatedPrevOf_full {m : Notification} {prev : List Notification}
    {orders : List Order} (h : m ∈ updatedPrevOf prev orders) :
    ∃ n, n ∈ prev ∧ ∃ o, orders.find? (fun q => q.id == n.orderId) = some o ∧
      ((n.type == NotificationType.new_order && isDeliveredStatus (currentStatusOf o)
          && !(n.status == some (currentStatusOf o))) = true ∧
        m = { n with
              type := NotificationType.delivered
              message := "a été livrée avec succès"
              status := some (currentStatusOf o) } ∨
       (n.type == NotificationType.new_order && isDeliveredStatus (currentStatusOf o)
          && !(n.status == some (currentStatusOf o))) = false ∧ m = n) := by
  unfold updatedPrevOf at h
  simp only [] at h
  obtain ⟨n, hn, hfn⟩ := List.mem_filterMap.mp h
  have hnprev : n ∈ prev := List.mem_of_mem_filter hn
  refine ⟨n, hnprev, ?_⟩
  rcases hfind : orders.find? (fun q => q.id == n.orderId) with _ | o
  · rw [hfind] at hfn
    simp at hfn
  · rw [hfind] at hfn
    simp only [] at hfn
    by_cases hcond : (n.type == NotificationType.new_order &&
        isDeliveredStatus (currentStatusOf o) && !(n.status == some (currentStatusOf o))) = true
    · rw [if_pos hcond] at hfn
      refine ⟨o, hfind, Or.inl ⟨hcond, ?_⟩⟩
      simpa using hfn.symm
    · rw [if_neg hcond] at hfn
      refine ⟨o, hfind, Or.inr ⟨by simpa using hcond, ?_⟩⟩
      simpa using hfn.symm

theorem mem_refresh_combined {m : Notification} {st : EngineState} {o : Order}
    {os : List Order} {now : Nat}
    (h : m ∈ (refreshNotifications st (some (o :: os)) now).notifications) :
    m ∈ (o :: os).flatMap
        (processOrder st.notifications st.seenOrderIds st.lastOrderStatuses now)
      ++ updatedPrevOf st.notifications (o :: os) := by
  rw [refresh_cons_notifications] at h
  have h1 := List.mem_of_mem_take h
  exact mem_of_mem_dedupNotifs ((List.mem_insertionSort notifGE).mp h1)

/-- The per-pass side condition of read monotonicity: the feed does not report
a changed status for order X relative to the state's last-known-status map (an
absent or empty stored status, which the engine ignores, is also allowed). -/
def noChangeB (st : EngineState) (feed : Option (List Order)) (X : String) : Bool :=
  match feed with
  | none => true
  | some orders => orders.all (fun o =>
      if o.id == X then
        match mapLookup st.lastOrderStatuses X with
        | some p => p == "" || p == currentStatusOf o
        | none => true
      else true)

/-- The invariant carried by the read-monotonicity proof: order X is seen and
every notification with the acknowledged id and order X is read. -/
def ReadInv (X nid : String) (st : EngineState) : Prop :=
  st.seenOrderIds.contains X = true ∧
  ∀ m ∈ st.notifications, m.id = nid → m.orderId = X → m.isRead = true

theorem ReadInv_refresh {X nid : String} {st : EngineState} {feed : Option (List Order)}
    (now : Nat) (hinv : ReadInv X nid st) (hnc : noChangeB st feed X = true) :
    ReadInv X nid (refreshNotifications st feed now) := by
  obtain ⟨hseen, hread⟩ := hinv
  constructor
  · rw [refresh_seen]
    exact hseen
  · match feed with
    | none => intro m hm; simp [refreshNotifications] at hm
    | some [] => intro m hm; simp [refreshNotifications] at hm
    | some (o :: os) =>
      intro m hm hid horder
      rcases List.mem_append.mp (mem_refresh_combined hm) with hnew | hold
      · obtain ⟨q, hq, hmq⟩ := List.mem_flatMap.mp hnew
        obtain ⟨hmo, hmread, _, hcases⟩ := mem_processOrder hmq
        have hqX : q.id = X := by rw [← hmo, horder]
        exfalso
        rcases hcases with ⟨hc, _, _, _⟩ | ⟨e, hex, _, _, hme⟩ | ⟨_, ⟨p, hp, hp1, hp2⟩, _⟩
        · rw [hqX, hseen] at hc
          simp at hc
        · obtain ⟨hemem, heo, _, heread⟩ := findExistingNO_some hex
          have heid : e.id = nid := by
            rw [← hid, hme]
          have heX : e.orderId = X := by rw [heo, hqX]
          rw [hread e hemem heid heX] at heread
          simp at heread
        · unfold noChangeB at hnc
          have hq' := List.all_eq_true.mp hnc q hq
          rw [if_pos (by simpa using hqX)] at hq'
          rw [hqX] at hp
          rw [hp] at hq'
          rw [Bool.or_eq_true] at hq'
          rcases hq' with h | h
          · rw [hp1] at h
            simp at h
          · rw [hp2] at h
            simp at h
      · obtain ⟨n, hnmem, o', _, hbr⟩ := mem_updatedPrevOf_full hold
        have hfacts : m.id = n.id ∧ m.orderId = n.orderId ∧ m.isRead = n.isRead := by
          rcases hbr with ⟨_, hm'⟩ | ⟨_, hm'⟩
          · rw [hm']
            exact ⟨rfl, rfl, rfl⟩
          · rw [hm']
            exact ⟨rfl, rfl, rfl⟩
        rw [hfacts.2.2]
        exact hread n hnmem (by rw [← hfacts.1, hid]) (by rw [← hfacts.2.1, horder])

theorem ReadInv_runPasses (X nid : String) :
    ∀ (passes : List (Option (List Order) × Nat)) (st : EngineState), ReadInv X nid st →
      (∀ i (h : i < passes.length),
        noChangeB (runPasses st (passes.take i)) (passes.get ⟨i, h⟩).1 X = true) →
      ReadInv X nid (runPasses st passes) := by
  intro passes
  induction passes with
  | nil => intro st h _; exact h
  | cons p ps ih =>
    intro st hinv hnc
    have h0 := hnc 0 (Nat.succ_pos _)
    have hinv' : ReadInv X nid (refreshNotifications st p.1 p.2) :=
      ReadInv_refresh p.2 hinv h0
    exact ih _ hinv' (fun i h => hnc (i + 1) (Nat.succ_lt_succ h))

/-- C9: once a notification has been acknowledged with markAsRead, reconcile
passes whose feeds never report a changed status for that notification's order
(relative to the evolving last-known-status map) never show a notification
with that id and order as unread again. -/
theorem C9_read_monotonic (st0 : EngineState) (nN : Notification)
    (passes : List (Option (List Order) × Nat))
    (hfind : st0.notifications.find? (fun m => m.id == nN.id) = some nN)
    (hnc : ∀ i (h : i < passes.length),
      noChangeB (runPasses (markAsRead st0 nN.id) (passes.take i)) (passes.get ⟨i, h⟩).1
        nN.orderId = true) :
    ∀ m ∈ (runPasses (markAsRead st0 nN.id) passes).notifications,
      m.id = nN.id → m.orderId = nN.orderId → m.isRead = true := by
  have hbase : ReadInv nN.orderId nN.id (markAsRead st0 nN.id) := by
    constructor
    · rw [markAsRead_eq_of_find st0 nN.id nN hfind]
      exact List.elem_iff.mpr (mem_insertSeen_self _ _)
    · rw [markAsRead_eq_of_find st0 nN.id nN hfind]
      intro m hm hid _
      obtain ⟨n, hn, hmn⟩ := List.mem_map.mp hm
      rw [← hmn]
      unfold markAsReadUpd
      have hnid : (n.id == nN.id) = true := by
        have := markAsReadUpd_id nN.id n
        rw [← hmn] at hid
        rw [this] at hid
        simpa using hid
      rw [if_pos hnid]
  exact (ReadInv_runPasses nN.orderId nN.id passes (markAsRead st0 nN.id) hbase hnc).2

/-- C9 witness: the concrete one-notification state, acknowledged, then one
pass whose feed reports the same order with an unchanged (never recorded)
status; the surviving notification stays read. -/
theorem C9_read_monotonic_witness :
    ({ c3NewOrderNotif with isRead := true, isNew := false } : Notification).isRead = true :=
  C9_read_monotonic ⟨[c3NewOrderNotif], [], []⟩ c3NewOrderNotif
    [(some [mkOrder "X" "pending" none], 5)] (by decide) (by decide)
    { c3NewOrderNotif with isRead := true, isNew := false } (by decide) (by decide) (by decide)

theorem mapLookup_foldl_keep (k : String) :
    ∀ (os : List Order) (acc : List (String × String)), (∀ r ∈ os, r.id ≠ k) →
      mapLookup (os.foldl (fun m o => mapSet m o.id (currentStatusOf o)) acc) k =
        mapLookup acc k := by
  intro os
  induction os with
  | nil => intro acc _; rfl
  | cons r rs ih =>
    intro acc h
    rw [List.foldl_cons, ih _ (fun x hx => h x (List.mem_cons_of_mem _ hx)),
      mapLookup_mapSet_other _ _ (fun he => h r (List.mem_cons_self _ _) he.symm)]

theorem mapLookup_updStatuses_aux (q : Order) :
    ∀ (orders : List Order) (acc : List (String × String)),
      (orders.map (fun o => o.id)).Nodup → q ∈ orders →
      mapLookup (orders.foldl (fun m o => mapSet m o.id (currentStatusOf o)) acc) q.id =
        some (currentStatusOf q) := by
  intro orders
  induction orders with
  | nil => intro acc _ hq; simp at hq
  | cons o os ih =>
    intro acc hnd hq
    rw [List.map_cons] at hnd
    obtain ⟨hhead, htail⟩ := List.nodup_cons.mp hnd
    rw [List.foldl_cons]
    rcases List.mem_cons.mp hq with hq' | hq'
    · subst hq'
      have hnotin : ∀ r ∈ os, r.id ≠ q.id := by
        intro r hr he
        exact hhead (he ▸ List.mem_map.mpr ⟨r, hr, rfl⟩)
      rw [mapLookup_foldl_keep _ _ _ hnotin, mapLookup_mapSet_self]
    · exact ih _ htail hq'

theorem find?_order_of_nodup {orders : List Order} {q : Order}
    (hnd : (orders.map (fun o => o.id)).Nodup) (hq : q ∈ orders) :
    orders.find? (fun o => o.id == q.id) = some q := by
  induction orders with
  | nil => simp at hq
  | cons o os ih =>
    rw [List.map_cons] at hnd
    obtain ⟨hhead, htail⟩ := List.nodup_cons.mp hnd
    rcases List.mem_cons.mp hq with hq' | hq'
    · subst hq'
      rw [List.find?_cons_of_pos _ (by simp)]
    · have hne : (o.id == q.id) = false := by
        have h2 : o.id ≠ q.id := by
          intro he
          exact hhead (he ▸ List.mem_map.mpr ⟨q, hq', rfl⟩)
        simpa using h2
      rw [List.find?_cons_of_neg _ (by simp [hne])]
      exact ih htail hq'

theorem getNotificationType_ne_new_order (s : String) :
    getNotificationType s ≠ NotificationType.new_order := by
  unfold getNotificationType
  by_cases h : isDeliveredStatus s = true
  · rw [if_pos h]; simp
  · rw [if_neg h]; simp

theorem filterMap_eq_self_of {α : Type} {f : α → Option α} :
    ∀ {l : List α}, (∀ m ∈ l, f m = some m) → l.filterMap f = l := by
  intro l
  induction l with
  | nil => intro _; rfl
  | cons a as ih =>
    intro h
    rw [List.filterMap_cons, h a (List.mem_cons_self _ _)]
    rw [ih (fun m hm => h m (List.mem_cons_of_mem _ hm))]

theorem processOrder_eq_nil {prev : List Notification} {seen : List String}
    {statuses : List (String × String)} {now : Nat} {o : Order}
    (h1 : (!seen.contains o.id && !(findExistingNO prev o.id).isSome) = false)
    (h2 : ∀ e, findExistingNO prev o.id = some e →
      (isDeliveredStatus (currentStatusOf o) && !(e.status == some (currentStatusOf o))) = false)
    (h3 : mapLookup statuses o.id = some (currentStatusOf o)) :
    processOrder prev seen statuses now o = [] := by
  unfold processOrder
  simp only []
  rw [h1, h3]
  rcases hex : findExistingNO prev o.id with _ | e
  · simp
  · simp only []
    rw [h2 e hex]
    simp

theorem refresh_mem_orderId {st : EngineState} {o : Order} {os : List Order} {now : Nat}
    {m : Notification} (hm : m ∈ (refreshNotifications st (some (o :: os)) now).notifications) :
    ∃ q ∈ o :: os, m.orderId = q.id := by
  rcases List.mem_append.mp (mem_refresh_combined hm) with hnew | hold
  · obtain ⟨q, hq, hmq⟩ := List.mem_flatMap.mp hnew
    exact ⟨q, hq, (mem_processOrder hmq).1⟩
  · obtain ⟨n, _, o', hfind, hbr⟩ := mem_updatedPrevOf_full hold
    have ho' : o' ∈ o :: os := List.mem_of_find?_eq_some hfind
    have hid : o'.id = n.orderId := by simpa using List.find?_some hfind
    have hmn : m.orderId = n.orderId := by
      rcases hbr with ⟨_, hm'⟩ | ⟨_, hm'⟩ <;> rw [hm']
    exact ⟨o', ho', by rw [hmn, hid]⟩

theorem refresh_mem_new_order_status {st : EngineState} {o : Order} {os : List Order}
    {now : Nat} {m : Notification} {q : Order}
    (hnd : ((o :: os).map (fun r => r.id)).Nodup)
    (hm : m ∈ (refreshNotifications st (some (o :: os)) now).notifications)
    (htype : m.type = NotificationType.new_order) (hq : q ∈ o :: os) (hid : q.id = m.orderId) :
    (isDeliveredStatus (currentStatusOf q) && !(m.status == some (currentStatusOf q))) = false := by
  rcases List.mem_append.mp (mem_refresh_combined hm) with hnew | hold
  · obtain ⟨q', hq', hmq⟩ := List.mem_flatMap.mp hnew
    obtain ⟨hmo, _, hmstatus, hcases⟩ := mem_processOrder hmq
    have hqq' : q = q' := List.inj_on_of_nodup_map hnd hq hq' (by rw [hid, hmo])
    subst hqq'
    rcases hcases with ⟨_, _, hty, _⟩ | ⟨e, _, _, _, hme⟩ | ⟨_, _, hty⟩
    · rcases hty with ⟨_, hdel⟩ | ⟨hty, _⟩
      · rw [hdel]
        simp
      · rw [htype] at hty
        simp at hty
    · rw [hme] at htype
      simp at htype
    · rw [htype] at hty
      exact absurd hty.symm (getNotificationType_ne_new_order _)
  · obtain ⟨n, _, o', hfind, hbr⟩ := mem_updatedPrevOf_full hold
    have ho' : o' ∈ o :: os := List.mem_of_find?_eq_some hfind
    have hoid : o'.id = n.orderId := by simpa using List.find?_some hfind
    rcases hbr with ⟨_, hm'⟩ | ⟨hcond, hm'⟩
    · rw [hm'] at htype
      simp at htype
    · subst hm'
      have hqo' : q = o' := List.inj_on_of_nodup_map hnd hq ho' (by rw [hid, hoid])
      subst hqo'
      have hbeq : (m.type == NotificationType.new_order) = true := by
        rw [htype]
        rfl
      rw [Bool.and_assoc, hbeq, Bool.true_and] at hcond
      exact hcond

theorem mapLookup_updatedStatusesOf {orders : List Order} {q : Order}
    (hnd : (orders.map (fun o => o.id)).Nodup) (hq : q ∈ orders) :
    mapLookup (updatedStatusesOf orders) q.id = some (currentStatusOf q) := by
  unfold updatedStatusesOf
  exact mapLookup_updStatuses_aux q orders [] hnd hq

/-- C4 (amended): reconciling twice in a row with the same feed of distinct
order ids yields an identical notification list, provided that after the first
pass every order still unseen retains an unread new_order notification (an
unseen order already delivered, or one whose notification the 30-cap dropped,
is re-synthesized with a fresh id instead). -/
theorem C4_idempotent_when_retained (st0 : EngineState) (orders : List Order) (n1 n2 : Nat)
    (hnd : (orders.map (fun o => o.id)).Nodup)
    (hret : ∀ o ∈ orders,
      (refreshNotifications st0 (some orders) n1).seenOrderIds.contains o.id = false →
      ∃ m ∈ (refreshNotifications st0 (some orders) n1).notifications,
        m.orderId = o.id ∧ m.type = NotificationType.new_order ∧ m.isRead = false) :
    (refreshNotifications (refreshNotifications st0 (some orders) n1)
        (some orders) n2).notifications =
      (refreshNotifications st0 (some orders) n1).notifications := by
  match orders, hnd, hret with
  | [], _, _ => rfl
  | o :: os, hnd, hret =>
    set st1 := refreshNotifications st0 (some (o :: os)) n1 with hst1
    have hstat : st1.lastOrderStatuses = updatedStatusesOf (o :: os) := rfl
    have hpk : PKeys st1.notifications := PKeys_of_refresh st0 (some (o :: os)) n1
    have hsort : List.Sorted notifGE st1.notifications :=
      sorted_of_refresh st0 (some (o :: os)) n1
    have hlen : st1.notifications.length ≤ 30 := length_of_refresh_le st0 (some (o :: os)) n1
    have hnil : (o :: os).flatMap
        (processOrder st1.notifications st1.seenOrderIds st1.lastOrderStatuses n2) = [] := by
      rw [List.flatMap_eq_nil_iff]
      intro q hq
      apply processOrder_eq_nil
      · by_cases hc : st1.seenOrderIds.contains q.id = true
        · rw [hc]
          rfl
        · have hc' : st1.seenOrderIds.contains q.id = false := by
            simpa using hc
          obtain ⟨m, hmmem, hmo, hmt, hmr⟩ := hret q hq hc'
          have hsome : (findExistingNO st1.notifications q.id).isSome = true := by
            unfold findExistingNO
            rw [List.find?_isSome]
            exact ⟨m, hmmem, by simp [hmo, hmt, hmr]⟩
          rw [hsome]
          simp
      · intro e hex
        obtain ⟨hemem, heo, hety, _⟩ := findExistingNO_some hex
        exact refresh_mem_new_order_status hnd hemem hety hq heo.symm
      · rw [hstat]
        exact mapLookup_updatedStatusesOf hnd hq
    have hupd : updatedPrevOf st1.notifications (o :: os) = st1.notifications := by
      unfold updatedPrevOf
      simp only []
      have hids : ∀ m ∈ st1.notifications,
          (((o :: os).map (fun r => r.id)).contains m.orderId) = true := by
        intro m hmmem
        obtain ⟨q, hq, hmq⟩ := refresh_mem_orderId hmmem
        rw [hmq]
        exact List.elem_iff.mpr (List.mem_map.mpr ⟨q, hq, rfl⟩)
      rw [List.filter_eq_self.mpr hids]
      apply filterMap_eq_self_of
      intro m hmmem
      obtain ⟨q, hq, hmq⟩ := refresh_mem_orderId hmmem
      have hfind : (o :: os).find? (fun r => r.id == m.orderId) = some q := by
        rw [hmq]
        exact find?_order_of_nodup hnd hq
      rw [hfind]
      simp only []
      by_cases hty : m.type = NotificationType.new_order
      · have hcond := refresh_mem_new_order_status hnd hmmem hty hq hmq.symm
        have ha : (m.type == NotificationType.new_order) = true := by
          rw [hty]
          rfl
        have hfalse : (m.type == NotificationType.new_order &&
            isDeliveredStatus (currentStatusOf q) &&
            !(m.status == some (currentStatusOf q))) = false := by
          rw [Bool.and_assoc, ha, Bool.true_and]
          exact hcond
        rw [if_neg (by rw [hfalse]; simp)]
      · have ha : (m.type == NotificationType.new_order) = false := by
          simpa using hty
        rw [if_neg (by rw [ha]; simp)]
    rw [refresh_cons_notifications st1 o os n2, hnil, hupd, List.nil_append]
    rw [@dedupNotifs_eq_self st1.notifications [] hpk (fun m _ => rfl)]
    rw [List.Sorted.insertionSort_eq hsort]
    exact List.take_of_length_le hlen


/-- C4 witness: one fresh pending order, reconciled twice with an unchanged
feed; the second pass returns the very same notification list. -/
theorem C4_idempotent_witness :
    (refreshNotifications (refreshNotifications initState
        (some [mkOrder "W" "pending" (some 10)]) 1)
        (some [mkOrder "W" "pending" (some 10)]) 2).notifications =
      (refreshNotifications initState (some [mkOrder "W" "pending" (some 10)]) 1).notifications :=
  C4_idempotent_when_retained initState [mkOrder "W" "pending" (some 10)] 1 2
    (by decide) (by decide)

theorem charsStart_append (pat t : List Char) : charsStart pat (pat ++ t) = true := by
  induction pat with
  | nil => rfl
  | cons a as ih =>
    unfold charsStart
    simp only [List.cons_append]
    rw [ih]
    simp

theorem charsHave_suffix (pat : List Char) : ∀ (P : List Char), charsHave pat (P ++ pat) = true := by
  intro P
  induction P with
  | nil =>
    rw [List.nil_append]
    cases pat with
    | nil => rfl
    | cons c cs =>
      unfold charsHave
      have h := charsStart_append (c :: cs) []
      rw [List.append_nil] at h
      rw [h]
      simp
  | cons c P ih =>
    rw [List.cons_append]
    unfold charsHave
    rw [ih]
    simp

theorem isDelivered_of_suffix {s : String} {P : List Char}
    (h : s.data = P ++ "delivered".data) : isDeliveredStatus s = true := by
  unfold isDeliveredStatus includesStr lowerStr
  simp only []
  rw [h, List.map_append]
  have hk : List.map Char.toLower "delivered".data = "delivered".data := by decide
  rw [hk, charsHave_suffix]
  simp

theorem delivered_key_inj {q x : String}
    (h : q ++ "-" ++ "delivered" = x ++ "-" ++ "delivered") : q = x := by
  have hd := congrArg String.data h
  simp only [String.data_append] at hd
  have h1 := (List.append_inj' hd rfl).1
  have h2 := (List.append_inj' h1 rfl).1
  exact String.ext h2

theorem new_order_key_ne_delivered_key (q x : String) :
    q ++ "-" ++ "new_order" ≠ x ++ "-" ++ "delivered" := by
  intro h
  have hd := congrArg String.data h
  simp only [String.data_append] at hd
  have hrev := congrArg List.reverse hd
  simp only [List.reverse_append] at hrev
  have hel := congrArg (fun l => l[0]?) hrev
  simp only [] at hel
  rw [List.getElem?_append_left (by decide), List.getElem?_append_left (by decide)] at hel
  exact absurd hel (by decide)

theorem status_key_ne_delivered_key {q x s : String} (hs : isDeliveredStatus s = false) :
    q ++ "-" ++ "status_change" ++ "-" ++ s ≠ x ++ "-" ++ "delivered" := by
  intro h
  have hd := congrArg String.data h
  simp only [String.data_append] at hd
  have hrev := congrArg List.reverse hd
  simp only [List.reverse_append] at hrev
  rcases Nat.lt_or_ge s.data.length 9 with hlen | hlen
  · have hel := congrArg (fun l => l[s.data.length]?) hrev
    simp only [] at hel
    rw [List.getElem?_append_right (by simp)] at hel
    rw [List.length_reverse, Nat.sub_self] at hel
    rw [List.getElem?_append_left (by simp)] at hel
    rw [List.getElem?_append_left (by simpa using hlen)] at hel
    have h1 : (['-'].reverse)[0]? = some '-' := rfl
    rw [h1] at hel
    have hnd : ∀ i, i < 9 →
        ¬(['d', 'e', 'l', 'i', 'v', 'e', 'r', 'e', 'd'].reverse[i]? = some '-') := by decide
    exact hnd s.data.length hlen hel.symm
  · have hsplit := (List.take_append_drop 9 s.data.reverse).symm
    rw [hsplit, List.append_assoc] at hrev
    have hlt : (s.data.reverse.take 9).length = 9 := by
      rw [List.length_take, List.length_reverse]
      omega
    have hinj := List.append_inj hrev (by rw [hlt]; decide)
    have htake : s.data.reverse.take 9 = "delivered".data.reverse := hinj.1
    have hsfx : s.data = (s.data.reverse.drop 9).reverse ++ "delivered".data := by
      have h2 := congrArg List.reverse (List.take_append_drop 9 s.data.reverse)
      rw [List.reverse_append, List.reverse_reverse, htake, List.reverse_reverse] at h2
      exact h2.symm
    exact absurd (isDelivered_of_suffix hsfx) (by rw [hs]; simp)

theorem getNotificationType_delivered {s : String} (h : isDeliveredStatus s = true) :
    getNotificationType s = NotificationType.delivered := by
  unfold getNotificationType
  rw [if_pos h]

theorem filter_eq_singleton_split {α : Type} {p : α → Bool} :
    ∀ {l : List α} {a : α}, l.filter p = [a] →
      ∃ l1 l2, l = l1 ++ a :: l2 ∧ (∀ b ∈ l1, p b = false) ∧ (∀ b ∈ l2, p b = false) := by
  intro l
  induction l with
  | nil => intro a h; simp at h
  | cons x xs ih =>
    intro a h
    by_cases hx : p x = true
    · rw [List.filter_cons_of_pos hx] at h
      injection h with h1 h2
      subst h1
      refine ⟨[], xs, by simp, by simp, ?_⟩
      intro b hb
      have := List.filter_eq_nil_iff.mp h2 b hb
      simpa using this
    · rw [List.filter_cons_of_neg hx] at h
      obtain ⟨l1, l2, hsp, h1, h2⟩ := ih h
      refine ⟨x :: l1, l2, by rw [hsp, List.cons_append], ?_, h2⟩
      intro b hb
      rcases List.mem_cons.mp hb with hb | hb
      · subst hb
        simpa using hx
      · exact h1 b hb

theorem processOrder_key_shapes {m : Notification} {prev : List Notification}
    {seen : List String} {statuses : List (String × String)} {now : Nat} {q : Order}
    (h : m ∈ processOrder prev seen statuses now q) :
    dedupKeyOf m = q.id ++ "-" ++ "new_order" ∨
    dedupKeyOf m = q.id ++ "-" ++ "delivered" ∨
    ∃ s, dedupKeyOf m = q.id ++ "-" ++ "status_change" ++ "-" ++ s ∧
      isDeliveredStatus s = false := by
  obtain ⟨hmo, _, hst, hcases⟩ := mem_processOrder h
  rcases hcases with ⟨_, _, hty, _⟩ | ⟨e, _, _, _, hme⟩ | ⟨_, _, hty⟩
  · rcases hty with ⟨hty, _⟩ | ⟨hty, _⟩
    · left
      rw [dedupKeyOf_new_order hty, hmo]
    · right; left
      rw [dedupKeyOf_delivered hty, hmo]
  · right; left
    have hty : m.type = NotificationType.delivered := by rw [hme]
    rw [dedupKeyOf_delivered hty, hmo]
  · by_cases hdel : isDeliveredStatus (currentStatusOf q) = true
    · right; left
      have hty2 : m.type = NotificationType.delivered := by
        rw [hty]
        exact getNotificationType_delivered hdel
      rw [dedupKeyOf_delivered hty2, hmo]
    · right; right
      have hdel' : isDeliveredStatus (currentStatusOf q) = false := by simpa using hdel
      have hty2 : m.type = NotificationType.status_change := by
        rw [hty]
        unfold getNotificationType
        rw [hdel']
        simp
      refine ⟨currentStatusOf q, ?_, hdel'⟩
      rw [dedupKeyOf_status_change hty2, hmo, hst]

theorem processOrder_upgrade {prev : List Notification} (seen : List String)
    (statuses : List (String × String)) (now : Nat) {o : Order} {e : Notification}
    (hex : findExistingNO prev o.id = some e)
    (hdel : isDeliveredStatus (currentStatusOf o) = true)
    (hst : (e.status == some (currentStatusOf o)) = false) :
    ∃ rest, processOrder prev seen statuses now o =
      { e with
        type := NotificationType.delivered
        message := "a été livrée avec succès"
        status := some (currentStatusOf o)
        timestamp := o.updated_at.getD e.timestamp } :: rest := by
  exact ⟨_, by
    unfold processOrder
    simp only []
    rw [hex]
    simp only [Option.isSome_some, Bool.not_true, Bool.and_false]
    rw [hdel, hst]
    simp
    rfl⟩


/-- C3 (amended): in a state with a unique unread new_order notification for
order X whose recorded status differs from the delivered status the feed now
reports (as does the status of every other new_order notification for X), a
pass over a feed containing exactly one entry for X yields at most one
notification of the new_order/delivered class for X; any such notification is
of type delivered with the same id as the prior new_order notification, and
when the resulting list is not full (under the 30-cap) exactly one is present.
Unread status_change notifications for X may additionally persist. -/
theorem C3_retroactive_upgrade_class (st : EngineState) (orders : List Order) (o : Order)
    (nN : Notification) (now : Nat)
    (hfe : orders.filter (fun q => q.id == o.id) = [o])
    (hdel : isDeliveredStatus (currentStatusOf o) = true)
    (hN : findExistingNO st.notifications o.id = some nN)
    (hall : ∀ m ∈ st.notifications, m.orderId = o.id → m.type = NotificationType.new_order →
      m.status ≠ some (currentStatusOf o)) :
    (∀ m ∈ (refreshNotifications st (some orders) now).notifications, m.orderId = o.id →
      (m.type = NotificationType.new_order ∨ m.type = NotificationType.delivered) →
      m.type = NotificationType.delivered ∧ m.id = nN.id) ∧
    ((refreshNotifications st (some orders) now).notifications.countP
      (fun m => m.orderId == o.id &&
        (m.type == NotificationType.new_order || m.type == NotificationType.delivered)) ≤ 1) ∧
    ((refreshNotifications st (some orders) now).notifications.length < 30 →
      (refreshNotifications st (some orders) now).notifications.countP
        (fun m => m.orderId == o.id &&
          (m.type == NotificationType.new_order || m.type == NotificationType.delivered)) = 1) := by
  obtain ⟨hNmem, hNo, hNty, hNread⟩ := findExistingNO_some hN
  have hNst : (nN.status == some (currentStatusOf o)) = false := by
    simpa using hall nN hNmem hNo hNty
  obtain ⟨rest, hfo⟩ :=
    processOrder_upgrade st.seenOrderIds st.lastOrderStatuses now hN hdel hNst
  obtain ⟨l1, l2, hsp, hl1, hl2⟩ := filter_eq_singleton_split hfe
  have hpk := PKeys_of_refresh st (some orders) now
  cases orders with
  | nil => exact absurd hfe (by simp)
  | cons o0 os =>
    -- the unique feed entry for X
    have hmemo : ∀ q ∈ o0 :: os, q.id = o.id → q = o := by
      intro q hq hqid
      have hqf : q ∈ List.filter (fun q => q.id == o.id) (o0 :: os) :=
        List.mem_filter.mpr ⟨hq, by simpa using hqid⟩
      rw [hfe] at hqf
      simpa using hqf
    -- every class-X member of the combined list is a delivered upgrade
    have hclass : ∀ m, m ∈ (o0 :: os).flatMap
          (processOrder st.notifications st.seenOrderIds st.lastOrderStatuses now)
          ++ updatedPrevOf st.notifications (o0 :: os) → m.orderId = o.id →
        (m.type = NotificationType.new_order ∨ m.type = NotificationType.delivered) →
        m.type = NotificationType.delivered := by
      intro m hm horder hcl
      rcases List.mem_append.mp hm with hnew | hold
      · obtain ⟨q, hq, hmq⟩ := List.mem_flatMap.mp hnew
        obtain ⟨hmo, _, _, hcases⟩ := mem_processOrder hmq
        have hqo : q = o := hmemo q hq (by rw [← hmo, horder])
        subst hqo
        rcases hcases with ⟨_, hnone, _, _⟩ | ⟨e, _, _, _, hme⟩ | ⟨_, _, hty⟩
        · rw [hN] at hnone
          exact absurd hnone (by simp)
        · rw [hme]
        · rw [hty]
          exact getNotificationType_delivered hdel
      · obtain ⟨n, hnmem, o', hfind, hbr⟩ := mem_updatedPrevOf_full hold
        have hno : o'.id = n.orderId := by simpa using List.find?_some hfind
        rcases hbr with ⟨_, hm'⟩ | ⟨hcond, hm'⟩
        · rw [hm']
        · subst hm'
          rcases hcl with hty | hty
          · exfalso
            have ho'mem : o' ∈ o0 :: os := List.mem_of_find?_eq_some hfind
            have ho'o : o' = o := hmemo o' ho'mem (by rw [hno, horder])
            rw [ho'o] at hcond
            have hbeq : (m.type == NotificationType.new_order) = true := by
              rw [hty]
              rfl
            rw [Bool.and_assoc, hbeq, Bool.true_and, Bool.and_eq_false_iff] at hcond
            rcases hcond with hcond | hcond
            · rw [hdel] at hcond
              simp at hcond
            · have hms : m.status = some (currentStatusOf o) := by simpa using hcond
              exact hall m hnmem horder hty hms
          · exact hty
    -- the upgraded notification and its key
    have hNVty : ({ nN with
        type := NotificationType.delivered
        message := "a été livrée avec succès"
        status := some (currentStatusOf o)
        timestamp := o.updated_at.getD nN.timestamp } : Notification).type =
          NotificationType.delivered := rfl
    have hNVkey : dedupKeyOf { nN with
        type := NotificationType.delivered
        message := "a été livrée avec succès"
        status := some (currentStatusOf o)
        timestamp := o.updated_at.getD nN.timestamp } = o.id ++ "-" ++ "delivered" := by
      rw [dedupKeyOf_delivered hNVty]
      simp only []
      rw [hNo]
    -- the combined list splits with the upgrade first among its key
    have hcomb : (o0 :: os).flatMap
          (processOrder st.notifications st.seenOrderIds st.lastOrderStatuses now)
          ++ updatedPrevOf st.notifications (o0 :: os) =
        l1.flatMap (processOrder st.notifications st.seenOrderIds st.lastOrderStatuses now)
          ++ ({ nN with
                type := NotificationType.delivered
                message := "a été livrée avec succès"
                status := some (currentStatusOf o)
                timestamp := o.updated_at.getD nN.timestamp } ::
              (rest ++ (l2.flatMap
                  (processOrder st.notifications st.seenOrderIds st.lastOrderStatuses now)
                ++ updatedPrevOf st.notifications (o0 :: os)))) := by
      rw [hsp, List.flatMap_append, List.flatMap_cons, hfo]
      simp [List.append_assoc]
    -- keys produced by feed entries other than o never collide with X-delivered
    have hbefore : ∀ b ∈ l1.flatMap
        (processOrder st.notifications st.seenOrderIds st.lastOrderStatuses now),
        dedupKeyOf b ≠ o.id ++ "-" ++ "delivered" := by
      intro b hb
      obtain ⟨q, hq, hbq⟩ := List.mem_flatMap.mp hb
      have hqne : q.id ≠ o.id := by
        have := hl1 q hq
        simpa using this
      rcases processOrder_key_shapes hbq with hk | hk | ⟨s, hk, hs⟩
      · rw [hk]
        exact new_order_key_ne_delivered_key _ _
      · rw [hk]
        intro he
        exact hqne (delivered_key_inj he)
      · rw [hk]
        exact status_key_ne_delivered_key hs
    have hNVin : { nN with
        type := NotificationType.delivered
        message := "a été livrée avec succès"
        status := some (currentStatusOf o)
        timestamp := o.updated_at.getD nN.timestamp } ∈
        dedupNotifs ((o0 :: os).flatMap
          (processOrder st.notifications st.seenOrderIds st.lastOrderStatuses now)
          ++ updatedPrevOf st.notifications (o0 :: os)) [] := by
      rw [hcomb]
      exact mem_dedupNotifs_of_first
        (fun b hb => by rw [hNVkey]; exact hbefore b hb) rfl
    -- membership in the result gives membership in the dedup output
    have hmem_dedup : ∀ m ∈ (refreshNotifications st (some (o0 :: os)) now).notifications,
        m ∈ dedupNotifs ((o0 :: os).flatMap
          (processOrder st.notifications st.seenOrderIds st.lastOrderStatuses now)
          ++ updatedPrevOf st.notifications (o0 :: os)) [] := by
      intro m hm
      rw [refresh_cons_notifications] at hm
      exact (List.mem_insertionSort notifGE).mp (List.mem_of_mem_take hm)
    -- part (i)
    have hpart1 : ∀ m ∈ (refreshNotifications st (some (o0 :: os)) now).notifications,
        m.orderId = o.id →
        (m.type = NotificationType.new_order ∨ m.type = NotificationType.delivered) →
        m.type = NotificationType.delivered ∧ m.id = nN.id := by
      intro m hm horder hcl
      have hmd := hmem_dedup m hm
      have hmc := mem_of_mem_dedupNotifs hmd
      have hty := hclass m hmc horder hcl
      refine ⟨hty, ?_⟩
      have hmkey : dedupKeyOf m = o.id ++ "-" ++ "delivered" := by
        rw [dedupKeyOf_delivered hty, horder]
      obtain ⟨c1, c2, hcsp, hcbefore⟩ := dedupNotifs_mem_split hmd
      have heq : c1 ++ m :: c2 =
          l1.flatMap (processOrder st.notifications st.seenOrderIds st.lastOrderStatuses now)
            ++ ({ nN with
                  type := NotificationType.delivered
                  message := "a été livrée avec succès"
                  status := some (currentStatusOf o)
                  timestamp := o.updated_at.getD nN.timestamp } ::
                (rest ++ (l2.flatMap
                    (processOrder st.notifications st.seenOrderIds st.lastOrderStatuses now)
                  ++ updatedPrevOf st.notifications (o0 :: os)))) := by
        rw [← hcsp, hcomb]
      have hmn := first_occurrence_unique dedupKeyOf heq
        (by rw [hmkey, hNVkey]) hcbefore
        (fun c hc => by rw [hNVkey]; exact hbefore c hc)
      rw [hmn]
    refine ⟨hpart1, ?_, ?_⟩
    · refine countP_le_one_of_pairwise _ hpk ?_
      intro a ha b hb hpa hpb hR
      simp only [Bool.and_eq_true, Bool.or_eq_true, beq_iff_eq] at hpa hpb
      have hta := hclass a (mem_of_mem_dedupNotifs (hmem_dedup a ha)) hpa.1 hpa.2
      have htb := hclass b (mem_of_mem_dedupNotifs (hmem_dedup b hb)) hpb.1 hpb.2
      exact hR (by rw [dedupKeyOf_delivered hta, dedupKeyOf_delivered htb, hpa.1, hpb.1])
    · intro hlen
      have hlt : (List.insertionSort notifGE (dedupNotifs ((o0 :: os).flatMap
          (processOrder st.notifications st.seenOrderIds st.lastOrderStatuses now)
          ++ updatedPrevOf st.notifications (o0 :: os)) [])).length < 30 := by
        rw [refresh_cons_notifications] at hlen
        rw [List.length_take] at hlen
        omega
      have hres : (refreshNotifications st (some (o0 :: os)) now).notifications =
          List.insertionSort notifGE (dedupNotifs ((o0 :: os).flatMap
            (processOrder st.notifications st.seenOrderIds st.lastOrderStatuses now)
            ++ updatedPrevOf st.notifications (o0 :: os)) []) := by
        rw [refresh_cons_notifications]
        exact List.take_of_length_le (Nat.le_of_lt hlt)
      have hNVres : { nN with
          type := NotificationType.delivered
          message := "a été livrée avec succès"
          status := some (currentStatusOf o)
          timestamp := o.updated_at.getD nN.timestamp } ∈
          (refreshNotifications st (some (o0 :: os)) now).notifications := by
        rw [hres]
        exact (List.mem_insertionSort notifGE).mpr hNVin
      have hppos : 0 < ((refreshNotifications st (some (o0 :: os)) now).notifications.countP
          (fun m => m.orderId == o.id &&
            (m.type == NotificationType.new_order || m.type == NotificationType.delivered))) := by
        rw [List.countP_pos_iff]
        refine ⟨_, hNVres, ?_⟩
        simp only [Bool.and_eq_true, Bool.or_eq_true, beq_iff_eq]
        exact ⟨by simpa using hNo, Or.inr trivial⟩
      have hle : ((refreshNotifications st (some (o0 :: os)) now).notifications.countP
          (fun m => m.orderId == o.id &&
            (m.type == NotificationType.new_order || m.type == NotificationType.delivered))) ≤ 1 := by
        refine countP_le_one_of_pairwise _ hpk ?_
        intro a ha b hb hpa hpb hR
        simp only [Bool.and_eq_true, Bool.or_eq_true, beq_iff_eq] at hpa hpb
        have hta := hclass a (mem_of_mem_dedupNotifs (hmem_dedup a ha)) hpa.1 hpa.2
        have htb := hclass b (mem_of_mem_dedupNotifs (hmem_dedup b hb)) hpb.1 hpb.2
        exact hR (by rw [dedupKeyOf_delivered hta, dedupKeyOf_delivered htb, hpa.1, hpb.1])
      omega


/-- C3 witness: the one-notification state of the counterexample without the
extra status_change entry; the pass leaves exactly one new_order/delivered
class notification for X. -/
theorem C3_retroactive_upgrade_witness :
    (refreshNotifications ⟨[c3NewOrderNotif], [], []⟩
        (some [mkOrder "X" "delivered" none]) 9).notifications.countP
      (fun m => m.orderId == "X" &&
        (m.type == NotificationType.new_order || m.type == NotificationType.delivered)) = 1 :=
  (C3_retroactive_upgrade_class ⟨[c3NewOrderNotif], [], []⟩ [mkOrder "X" "delivered" none]
      (mkOrder "X" "delivered" none) c3NewOrderNotif 9
      (by decide) (by decide) (by decide) (by decide)).2.2 (by decide)
